import Mathlib

/-!
Verification development for `SSDi-Calculator.py`.

The statistical engine of the program is shallowly embedded here:
Python floats are modelled as rationals (`ℚ`), Python's `round(x, k)`
as decimal round-half-to-even (`roundDec`), the dictionary of species
as an association list in insertion order, `random.sample(xs, len xs)`
as an oracle `draws : ℕ → List ℚ` whose outputs are constrained to be
permutations of the pooled sizes in the theorems, and
`scipy.stats.ttest_1samp` as an oracle `tt : List ℚ → Option ℚ`
returning `none` when the test yields NaN.  Fallible code
(`float(cols[2])`, which can raise `ValueError`) is embedded in the
`Except` monad.
-/

/-- Round-half-to-even of a rational to an integer, the tie rule used by
Python 3's built-in `round`. -/
def rhe (x : ℚ) : ℤ :=
  if x - ⌊x⌋ < 1/2 then ⌊x⌋
  else if 1/2 < x - ⌊x⌋ then ⌊x⌋ + 1
  else if ⌊x⌋ % 2 = 0 then ⌊x⌋ else ⌊x⌋ + 1

/-- Python's `round(x, k)`: round to `k` decimal places, ties to even. -/
def roundDec (k : ℕ) (x : ℚ) : ℚ := (rhe (x * 10 ^ k) : ℚ) / 10 ^ k

/-- `round(x, 1)` as used for the per-sex means (lines 199-234). -/
def round1 (x : ℚ) : ℚ := roundDec 1 x

/-- `round(x, 3)` as used for SSDi values and p-values. -/
def round3 (x : ℚ) : ℚ := roundDec 3 x

/-- `round(x, 5)` as used for the permutation p-value (line 359). -/
def round5 (x : ℚ) : ℚ := roundDec 5 x

/-- `np.mean` on a list of sizes. -/
def mean (l : List ℚ) : ℚ := l.sum / l.length

/-- A Python p-value slot: a string such as `"NA"` or `"<0.001"`, a
float, or the float NaN (which `scipy` returns for degenerate tests and
which `round` propagates). -/
inductive PVal where
  | str (s : String)
  | num (q : ℚ)
  | nan
deriving DecidableEq

/-- The per-species sub-dictionary built by `input_to_dict`:
sex-specific size lists under keys `"M"` and `"F"`. -/
structure Cohort where
  M : List ℚ
  F : List ℚ
deriving DecidableEq

/-- One value of `calc_dict` built by `run_ssdi_calculations`
(lines 245-248); `none` models the literal string `"NA"` in the
float-or-NA slots. -/
structure SpeciesResult where
  males : ℕ
  females : ℕ
  ssdi : ℚ
  avg_ssdi : Option ℚ
  p_pair : PVal
  low : Option ℚ
  high : Option ℚ
  p_perm : PVal
  diff : Option ℚ
  avgf : Option ℚ
  avgm : Option ℚ
deriving DecidableEq

/-- Lookup in an association list, modelling Python dict access. -/
def assocFind {α : Type} (d : List (String × α)) (k : String) : Option α :=
  match d with
  | [] => none
  | (k', v) :: rest => if k' = k then some v else assocFind rest k

/-- `ssdi_single` (lines 252-270): the Lovich & Gibbons dimorphism
index, negative if males are larger, positive if females are larger.
The final `elif f == m` of the source is the `else` here: over the
rationals the three comparisons are exhaustive, so the source's
fall-through (which would leave `ssdi` unbound) is unreachable. -/
def ssdi_single (f m : ℚ) : ℚ :=
  if m > f then round3 (-1 * (m / f - 1))
  else if f > m then round3 (f / m - 1)
  else 0

/-- The pairwise SSDi values built by the double loop of
`ssdi_pairwise` (lines 289-295), in source order. -/
def pairVals (females males : List ℚ) : List ℚ :=
  females.flatMap fun f => males.map fun m => ssdi_single f m

/-- `ssdi_pairwise` (lines 273-314).  `tt` is the
`scipy.stats.ttest_1samp(vals, 0)` p-value oracle; `tt vals = none`
models a NaN p-value, for which the comparison `nan <= 0.001` is false
and `round(nan, 3)` is again NaN. -/
def ssdi_pairwise (tt : List ℚ → Option ℚ) (females males : List ℚ) (ttest : Bool) :
    ℚ × PVal :=
  let vals := pairVals females males
  let avg_ssdi := round3 (mean vals)
  if ttest = false then (avg_ssdi, PVal.str "NA")
  else
    match tt vals with
    | none => (avg_ssdi, PVal.nan)
    | some pv =>
      if pv ≤ 1/1000 then (avg_ssdi, PVal.str "<0.001")
      else (avg_ssdi, PVal.num (round3 pv))

/-- Linear interpolation at fractional position `h` into a list,
the core of `np.percentile` with the default `linear` method. -/
def interpAt (s : List ℚ) (h : ℚ) : ℚ :=
  s.getD (⌊h⌋).toNat 0 + (h - ⌊h⌋) * (s.getD (⌈h⌉).toNat 0 - s.getD (⌊h⌋).toNat 0)

/-- `np.percentile(s, q)` for sorted `s` (the source sorts first). -/
def percentile (s : List ℚ) (q : ℚ) : ℚ :=
  interpAt s (q * (s.length - 1) / 100)

/-- The 10,000 permuted mean-SSDi values of `run_permutations`
(lines 337-350): iteration `i` takes the shuffled pool `draws i`
(modelling `random.sample(allsizes, len(allsizes))`), splits it at
`len(females)`, and keeps the mean pairwise SSDi of the split. -/
def permutedVals (draws : ℕ → List ℚ) (females males : List ℚ) : List ℚ :=
  (List.range 10000).map fun i =>
    (ssdi_pairwise (fun _ => none) ((draws i).take females.length)
      ((draws i).drop females.length) false).1

/-- `run_permutations` (lines 316-383): sorts the null distribution,
takes the 2.5/97.5 percentiles rounded to 3 decimals, and computes the
two-tailed p-value from the position of the empirical value. -/
def run_permutations (draws : ℕ → List ℚ) (females males : List ℚ) (emp_ssdi : ℚ) :
    ℚ × ℚ × PVal :=
  let sortedVals := List.insertionSort (· ≤ ·) (permutedVals draws females males)
  let low := round3 (percentile sortedVals (5/2))
  let high := round3 (percentile sortedVals (195/2))
  let ptwotail :=
    round5 ((((sortedVals.countP fun x => decide (|emp_ssdi| < |x|)) : ℚ) + 1) /
      ((sortedVals.length : ℚ) + 1))
  (low, high,
    if ptwotail ≤ 1/1000 then PVal.str "<0.001" else PVal.num (round3 ptwotail))

/-- The record-admission step at lines 242-248: Python's `if ssdi:`
admits the species only when `ssdi` is non-`None` and truthy, so a
species whose standard SSDi is exactly `0.0` is dropped. -/
def mkResult (F M : List ℚ) (s : ℚ) (avg_ssdi : Option ℚ) (p_pair : PVal)
    (low high : Option ℚ) (p_perm : PVal) (diff avgf avgm : Option ℚ) :
    Option SpeciesResult :=
  if s ≠ 0 then
    some ⟨M.length, F.length, s, avg_ssdi, p_pair, low, high, p_perm, diff, avgf, avgm⟩
  else none

/-- The per-species body of the loop in `run_ssdi_calculations`
(lines 183-248): the four sample-size branches plus the skip branch
for species missing a sex. -/
def analyze (tt : List ℚ → Option ℚ) (draws : ℕ → List ℚ) (F M : List ℚ) :
    Option SpeciesResult :=
  if F.length = 1 ∧ M.length = 1 then
    mkResult F M (ssdi_single F.headI M.headI) none (PVal.str "NA") none none
      (PVal.str "NA") none none none
  else if F.length > 1 ∧ M.length = 1 then
    let s := ssdi_single (round1 (mean F)) M.headI
    let ap := ssdi_pairwise tt F M true
    let lhp := run_permutations draws F M ap.1
    mkResult F M s (some ap.1) ap.2 (some lhp.1) (some lhp.2.1) lhp.2.2
      (some |s - ap.1|) (some (round1 (mean F))) none
  else if F.length = 1 ∧ M.length > 1 then
    let s := ssdi_single F.headI (round1 (mean M))
    let ap := ssdi_pairwise tt F M true
    let lhp := run_permutations draws F M ap.1
    mkResult F M s (some ap.1) ap.2 (some lhp.1) (some lhp.2.1) lhp.2.2
      (some |s - ap.1|) none (some (round1 (mean M)))
  else if F.length > 1 ∧ M.length > 1 then
    let s := ssdi_single (round1 (mean F)) (round1 (mean M))
    let ap := ssdi_pairwise tt F M true
    let lhp := run_permutations draws F M ap.1
    mkResult F M s (some ap.1) ap.2 (some lhp.1) (some lhp.2.1) lhp.2.2
      (some |s - ap.1|) (some (round1 (mean F))) (some (round1 (mean M)))
  else none

instance {α : Type} : DecidableRel (fun (a b : String × α) => a.1 ≤ b.1) :=
  fun a b => inferInstanceAs (Decidable (a.1 ≤ b.1))

/-- `sorted(species_dict.items())`: iteration in key order. -/
def sortByKey {α : Type} (l : List (String × α)) : List (String × α) :=
  List.insertionSort (fun a b => a.1 ≤ b.1) l

/-- `run_ssdi_calculations` (lines 170-249): iterate the cohorts in
key order, analyze each, and collect the admitted results.  `draws`
supplies the permutation oracle per species. -/
def run_ssdi_calculations (tt : List ℚ → Option ℚ) (draws : String → ℕ → List ℚ)
    (species_dict : List (String × Cohort)) : List (String × SpeciesResult) :=
  (sortByKey species_dict).filterMap fun kv =>
    (analyze tt (draws kv.1) kv.2.F kv.2.M).map fun r => (kv.1, r)

/-- Value of a digit string, most significant first. -/
def digitsVal (l : List Char) : ℕ := l.foldl (fun acc c => 10 * acc + (c.toNat - 48)) 0

/-- Unsigned part of a Python float literal: digits with an optional
point, at least one digit overall. -/
def parseUnsigned (cs : List Char) : Option ℚ :=
  match cs.dropWhile Char.isDigit with
  | [] => if cs = [] then none else some (digitsVal cs)
  | '.' :: frac =>
    if frac.all Char.isDigit ∧ (cs.takeWhile Char.isDigit ≠ [] ∨ frac ≠ []) then
      some ((digitsVal (cs.takeWhile Char.isDigit) : ℚ) +
        (digitsVal frac : ℚ) / 10 ^ frac.length)
    else none
  | _ => none

/-- Python's `float(s)` on the plain decimal forms that the input data
uses (optional sign, digits, optional decimal point); `none` models a
raised `ValueError`.  The exponent, infinity and NaN forms accepted by
`float` are not needed for any input considered here. -/
def parseFloat (s : String) : Option ℚ :=
  match s.toList with
  | '-' :: rest => (parseUnsigned rest).map (fun q => -q)
  | '+' :: rest => parseUnsigned rest
  | cs => parseUnsigned cs

/-- `str.upper()`. -/
def upperStr (s : String) : String := String.mk (s.toList.map Char.toUpper)

/-- Append a size to the given sex list of species `k`
(`species_dict[species][sex].append(size)`). -/
def updateCohort (d : List (String × Cohort)) (k : String) (size : ℚ) (isMale : Bool) :
    List (String × Cohort) :=
  d.map fun kv =>
    if kv.1 = k then
      (kv.1, if isMale then ⟨kv.2.M ++ [size], kv.2.F⟩ else ⟨kv.2.M, kv.2.F ++ [size]⟩)
    else kv

/-- One tokenized record processed by the loop body of `input_to_dict`
(lines 108-135).  State: the species dictionary plus the diagnostic
events emitted so far.  A record with fewer than 3 fields is skipped
with a diagnostic; `float(cols[2])` is evaluated next and an
unparseable size raises (`Except.error`); an unrecognized sex token is
skipped with a diagnostic, but the species entry (created on first
sight with two empty lists) remains. -/
def stepRecord (st : List (String × Cohort) × List String) (cols : List String) :
    Except String (List (String × Cohort) × List String) :=
  if cols.length < 3 then Except.ok (st.1, st.2 ++ ["input_to_dict: Bad line"])
  else
    match parseFloat (cols.getD 2 "") with
    | none => Except.error (cols.getD 2 "")
    | some size =>
      let species := cols.getD 0 ""
      let sex := upperStr (cols.getD 1 "")
      let d := if (assocFind st.1 species).isSome then st.1
        else st.1 ++ [(species, ⟨[], []⟩)]
      if sex = "M" then Except.ok (updateCohort d species size true, st.2)
      else if sex = "F" then Except.ok (updateCohort d species size false, st.2)
      else Except.ok (d, st.2 ++ ["input_to_dict: Skipping entry"])

/-- `input_to_dict` (lines 76-140) over the tokenized data records.
The header skip (`next(fh)`), the blank-line guard and the
tab/comma split belong to the external ingestion boundary; the records
here are the already-split non-blank data lines. -/
def input_to_dict (records : List (List String)) :
    Except String (List (String × Cohort) × List String) :=
  records.foldlM stepRecord ([], [])

/-! Rounding lemmas. -/

theorem floor_le_rhe (x : ℚ) : ⌊x⌋ ≤ rhe x := by
  unfold rhe; split_ifs <;> omega

theorem rhe_le_floor_add_one (x : ℚ) : rhe x ≤ ⌊x⌋ + 1 := by
  unfold rhe; split_ifs <;> omega

theorem rhe_mono {x y : ℚ} (h : x ≤ y) : rhe x ≤ rhe y := by
  have hf : ⌊x⌋ ≤ ⌊y⌋ := Int.floor_le_floor h
  rcases eq_or_lt_of_le hf with heq | hlt
  · unfold rhe
    rw [← heq]
    have hxy : x - (⌊x⌋ : ℚ) ≤ y - (⌊x⌋ : ℚ) := by linarith
    split_ifs <;> first | omega | linarith
  · calc rhe x ≤ ⌊x⌋ + 1 := rhe_le_floor_add_one x
      _ ≤ ⌊y⌋ := by omega
      _ ≤ rhe y := floor_le_rhe y

theorem rhe_zero : rhe 0 = 0 := by norm_num [rhe]

theorem roundDec_mono (k : ℕ) {x y : ℚ} (h : x ≤ y) : roundDec k x ≤ roundDec k y := by
  unfold roundDec
  have h1 : x * 10 ^ k ≤ y * 10 ^ k := mul_le_mul_of_nonneg_right h (by positivity)
  have h3 : ((rhe (x * 10 ^ k) : ℚ)) ≤ (rhe (y * 10 ^ k) : ℚ) := by
    exact_mod_cast rhe_mono h1
  exact (div_le_div_right (by positivity)).2 h3

theorem roundDec_zero (k : ℕ) : roundDec k 0 = 0 := by
  simp [roundDec, rhe_zero]

/-! Percentile lemmas. -/

theorem sorted_getD_mono {s : List ℚ} (hs : s.Sorted (· ≤ ·)) {i j : ℕ}
    (hij : i ≤ j) (hj : j < s.length) : s.getD i 0 ≤ s.getD j 0 := by
  have hi : i < s.length := lt_of_le_of_lt hij hj
  rw [List.getD_eq_getElem?_getD, List.getD_eq_getElem?_getD,
    List.getElem?_eq_getElem hi, List.getElem?_eq_getElem hj]
  simpa [List.get_eq_getElem] using
    hs.rel_get_of_le (a := ⟨i, hi⟩) (b := ⟨j, hj⟩) hij

theorem interpAt_le {s : List ℚ} (hs : s.Sorted (· ≤ ·)) {h : ℚ}
    (h0 : 0 ≤ h) (hub : h ≤ (s.length : ℚ) - 1) :
    s.getD (⌊h⌋).toNat 0 ≤ interpAt s h ∧ interpAt s h ≤ s.getD (⌈h⌉).toNat 0 := by
  have hn : 1 ≤ (s.length : ℚ) := by linarith
  have hn' : 1 ≤ s.length := by exact_mod_cast hn
  have hcl : ⌈h⌉ ≤ (s.length : ℤ) - 1 := by
    rw [Int.ceil_le]; push_cast; linarith
  have hfl0 : 0 ≤ ⌊h⌋ := Int.floor_nonneg.2 h0
  have hflcl : ⌊h⌋ ≤ ⌈h⌉ := Int.floor_le_ceil h
  have hclN : (⌈h⌉).toNat < s.length := by omega
  have hab : s.getD (⌊h⌋).toNat 0 ≤ s.getD (⌈h⌉).toNat 0 :=
    sorted_getD_mono hs (by omega) hclN
  have hfr0 : 0 ≤ h - ⌊h⌋ := by
    have := Int.floor_le h; linarith
  have hfr1 : h - ⌊h⌋ < 1 := by
    have := Int.lt_floor_add_one h; push_cast at this ⊢; linarith
  constructor
  · have : 0 ≤ (h - ⌊h⌋) * (s.getD (⌈h⌉).toNat 0 - s.getD (⌊h⌋).toNat 0) :=
      mul_nonneg hfr0 (by linarith)
    unfold interpAt; linarith
  · have : (h - ⌊h⌋) * (s.getD (⌈h⌉).toNat 0 - s.getD (⌊h⌋).toNat 0) ≤
        1 * (s.getD (⌈h⌉).toNat 0 - s.getD (⌊h⌋).toNat 0) :=
      mul_le_mul_of_nonneg_right (le_of_lt hfr1) (by linarith)
    unfold interpAt; linarith

theorem interpAt_mono {s : List ℚ} (hs : s.Sorted (· ≤ ·)) {h1 h2 : ℚ}
    (h10 : 0 ≤ h1) (h12 : h1 ≤ h2) (h2ub : h2 ≤ (s.length : ℚ) - 1) :
    interpAt s h1 ≤ interpAt s h2 := by
  have h20 : 0 ≤ h2 := le_trans h10 h12
  have h1ub : h1 ≤ (s.length : ℚ) - 1 := le_trans h12 h2ub
  have hn : 1 ≤ (s.length : ℚ) := by linarith
  have hn' : 1 ≤ s.length := by exact_mod_cast hn
  have hcl2 : ⌈h2⌉ ≤ (s.length : ℤ) - 1 := by
    rw [Int.ceil_le]; push_cast; linarith
  have hfl20 : 0 ≤ ⌊h2⌋ := Int.floor_nonneg.2 h20
  have hflN2 : (⌊h2⌋).toNat < s.length := by
    have := Int.floor_le_ceil h2; omega
  by_cases hc : ⌈h1⌉ ≤ ⌊h2⌋
  · have c1 := (interpAt_le hs h10 h1ub).2
    have c2 := (interpAt_le hs h20 h2ub).1
    have hcl10 : 0 ≤ ⌈h1⌉ := le_trans (Int.floor_nonneg.2 h10) (Int.floor_le_ceil h1)
    have cm : s.getD (⌈h1⌉).toNat 0 ≤ s.getD (⌊h2⌋).toNat 0 :=
      sorted_getD_mono hs (by omega) hflN2
    linarith
  · push_neg at hc
    have hf12 : ⌊h1⌋ ≤ ⌊h2⌋ := Int.floor_le_floor h12
    have hcf1 : ⌈h1⌉ ≤ ⌊h1⌋ + 1 := Int.ceil_le_floor_add_one h1
    have e1 : ⌊h1⌋ = ⌊h2⌋ := by omega
    have hne : (⌊h1⌋ : ℚ) < h1 := by
      by_contra hcon
      push_neg at hcon
      have hint : h1 = (⌊h1⌋ : ℚ) := le_antisymm hcon (Int.floor_le h1)
      have : ⌈h1⌉ = ⌊h1⌋ := by
        rw [hint, Int.ceil_intCast, Int.floor_intCast]
      omega
    have hne2 : (⌊h2⌋ : ℚ) < h2 := by
      have h' : (⌊h1⌋ : ℚ) < h2 := lt_of_lt_of_le hne h12
      rwa [e1] at h'
    have hc1 : ⌈h1⌉ = ⌊h1⌋ + 1 := by
      have : ⌊h1⌋ < ⌈h1⌉ := Int.lt_ceil.2 hne
      omega
    have hc2 : ⌈h2⌉ = ⌊h2⌋ + 1 := by
      have h' : ⌊h2⌋ < ⌈h2⌉ := Int.lt_ceil.2 hne2
      have := Int.ceil_le_floor_add_one h2
      omega
    have e2 : ⌈h1⌉ = ⌈h2⌉ := by omega
    unfold interpAt
    rw [← e1, ← e2]
    have hd : 0 ≤ s.getD (⌈h1⌉).toNat 0 - s.getD (⌊h1⌋).toNat 0 := by
      have : s.getD (⌊h1⌋).toNat 0 ≤ s.getD (⌈h1⌉).toNat 0 :=
        sorted_getD_mono hs (by omega) (by omega)
      linarith
    have ht : h1 - (⌊h1⌋ : ℚ) ≤ h2 - (⌊h1⌋ : ℚ) := by linarith
    nlinarith [mul_le_mul_of_nonneg_right ht hd]

theorem percentile_mono {s : List ℚ} (hs : s.Sorted (· ≤ ·)) (hn : 0 < s.length)
    {q1 q2 : ℚ} (hq0 : 0 ≤ q1) (hq : q1 ≤ q2) (hq2 : q2 ≤ 100) :
    percentile s q1 ≤ percentile s q2 := by
  have hn1 : (1 : ℚ) ≤ s.length := by exact_mod_cast hn
  unfold percentile
  have hlen : (0 : ℚ) ≤ (s.length : ℚ) - 1 := by linarith
  apply interpAt_mono hs
  · exact div_nonneg (mul_nonneg hq0 hlen) (by norm_num)
  · exact (div_le_div_right (by norm_num)).2 (mul_le_mul_of_nonneg_right hq hlen)
  ·
    calc q2 * ((s.length : ℚ) - 1) / 100 ≤ 100 * ((s.length : ℚ) - 1) / 100 := by
          apply (div_le_div_right (by norm_num)).2
          exact mul_le_mul_of_nonneg_right hq2 hlen
      _ = (s.length : ℚ) - 1 := by ring

/-! Facts about the sorted null distribution. -/

theorem sortedVals_sorted (draws : ℕ → List ℚ) (F M : List ℚ) :
    (List.insertionSort (· ≤ ·) (permutedVals draws F M)).Sorted (· ≤ ·) :=
  List.sorted_insertionSort _ _

theorem sortedVals_length (draws : ℕ → List ℚ) (F M : List ℚ) :
    (List.insertionSort (· ≤ ·) (permutedVals draws F M)).length = 10000 := by
  rw [(List.perm_insertionSort _ _).length_eq]
  simp [permutedVals]

/-- Claim C3: for strictly positive sizes, `ssdi_single` equals
`-((m / f) - 1)` rounded to 3 decimals when `m > f`, `(f / m) - 1`
rounded to 3 decimals when `f > m`, and exactly `0` when `f = m`
(the final branch below, reached exactly when `f = m`). -/
theorem ssdi_single_formula (f m : ℚ) (hf : 0 < f) (hm : 0 < m) :
    ssdi_single f m =
      if m > f then round3 (-((m / f) - 1))
      else if f > m then round3 ((f / m) - 1)
      else 0 := by
  unfold ssdi_single
  have harg : (-1 : ℚ) * (m / f - 1) = -((m / f) - 1) := by ring
  rw [harg]

theorem ssdi_single_formula_witness :
    0 < (3 : ℚ) ∧ 0 < (2 : ℚ) ∧
      ssdi_single 3 2 =
        (if (2 : ℚ) > 3 then round3 (-(((2 : ℚ) / 3) - 1))
         else if (3 : ℚ) > 2 then round3 (((3 : ℚ) / 2) - 1)
         else 0) :=
  ⟨by norm_num, by norm_num, ssdi_single_formula 3 2 (by norm_num) (by norm_num)⟩

/-- Claim C4, counterexample: with `f = 10000 < m = 10001` the exact
index is `-0.0001`, which `round(, 3)` collapses to `0`, so the result
is not strictly negative. -/
theorem ssdi_single_sign_cex :
    (10000 : ℚ) < 10001 ∧ ssdi_single 10000 10001 = 0 := by
  constructor
  · norm_num
  · norm_num [ssdi_single, round3, roundDec, rhe]

/-- Claim C4, amended: for strictly positive sizes the sign of the
result is never opposite to the comparison of the inputs — `f < m`
gives a nonpositive result, `f > m` a nonnegative one, and `f = m`
exactly `0` — but strictness can be lost to the 3-decimal rounding. -/
theorem ssdi_single_sign (f m : ℚ) (hf : 0 < f) (hm : 0 < m) :
    (f < m → ssdi_single f m ≤ 0) ∧ (m < f → 0 ≤ ssdi_single f m) ∧
      (f = m → ssdi_single f m = 0) := by
  refine ⟨fun h => ?_, fun h => ?_, fun h => ?_⟩
  · unfold ssdi_single
    rw [if_pos h]
    have hdiv : 1 < m / f := (one_lt_div hf).2 h
    have harg : (-1 : ℚ) * (m / f - 1) ≤ 0 := by linarith
    calc round3 ((-1 : ℚ) * (m / f - 1)) ≤ round3 0 := roundDec_mono 3 harg
      _ = 0 := roundDec_zero 3
  · unfold ssdi_single
    rw [if_neg (lt_asymm h), if_pos h]
    have hdiv : 1 < f / m := (one_lt_div hm).2 h
    have harg : (0 : ℚ) ≤ f / m - 1 := by linarith
    calc (0 : ℚ) = round3 0 := (roundDec_zero 3).symm
      _ ≤ round3 (f / m - 1) := roundDec_mono 3 harg
  · unfold ssdi_single
    rw [h, if_neg (lt_irrefl m), if_neg (lt_irrefl m)]

theorem ssdi_single_sign_witness :
    0 < (1 : ℚ) ∧ 0 < (2 : ℚ) ∧
      (((1 : ℚ) < 2 → ssdi_single 1 2 ≤ 0) ∧ ((2 : ℚ) < 1 → 0 ≤ ssdi_single 1 2) ∧
        ((1 : ℚ) = 2 → ssdi_single 1 2 = 0)) :=
  ⟨by norm_num, by norm_num, ssdi_single_sign 1 2 (by norm_num) (by norm_num)⟩

/-- Claim C9: for a permutation test on nonempty cohorts (combined
size at least 2) and any sequence of draws that are permutations of the
pooled sizes, the returned rounded 2.5th percentile is at most the
returned rounded 97.5th percentile.  (Both are rationals of the
embedding, hence finite by construction.) -/
theorem run_permutations_low_le_high (draws : ℕ → List ℚ) (F M : List ℚ) (emp : ℚ)
    (hf : 0 < F.length) (hm : 0 < M.length)
    (hperm : ∀ i, (draws i).Perm (F ++ M)) :
    (run_permutations draws F M emp).1 ≤ (run_permutations draws F M emp).2.1 := by
  simp only [run_permutations]
  apply roundDec_mono
  apply percentile_mono (sortedVals_sorted draws F M)
    (by rw [sortedVals_length]; norm_num) (by norm_num) (by norm_num) (by norm_num)

theorem run_permutations_low_le_high_witness :
    0 < [(1 : ℚ), 2].length ∧ 0 < [(3 : ℚ)].length ∧
      (run_permutations (fun _ => [1, 2, 3]) [1, 2] [3] 0).1 ≤
        (run_permutations (fun _ => [1, 2, 3]) [1, 2] [3] 0).2.1 :=
  ⟨by norm_num, by norm_num,
    run_permutations_low_le_high (fun _ => [1, 2, 3]) [1, 2] [3] 0 (by norm_num)
      (by norm_num) (fun _ => List.Perm.refl _)⟩

/-! Pairwise estimator lemmas and claims. -/

theorem pairVals_length (F M : List ℚ) : (pairVals F M).length = F.length * M.length := by
  induction F with
  | nil => simp [pairVals]
  | cons f fs ih =>
    simp only [pairVals, List.flatMap_cons, List.length_append, List.length_map] at ih ⊢
    rw [ih, List.length_cons]; ring

/-- Claim C6: the pairwise estimator builds exactly
`|females| * |males|` index values (one per pair), returns their mean
rounded to 3 decimals, returns the sentinel `"NA"` p-value when no
significance test is requested, and otherwise formats the one-sample
t-test p-value as `"<0.001"` when it is at most `0.001` and as the
value rounded to 3 decimals otherwise. -/
theorem ssdi_pairwise_contract (tt : List ℚ → Option ℚ) (F M : List ℚ)
    (hf : 0 < F.length) (hm : 0 < M.length) :
    (pairVals F M).length = F.length * M.length ∧
    (∀ b, (ssdi_pairwise tt F M b).1 = round3 (mean (pairVals F M))) ∧
    (ssdi_pairwise tt F M false).2 = PVal.str "NA" ∧
    (∀ q, tt (pairVals F M) = some q →
      (ssdi_pairwise tt F M true).2 =
        if q ≤ 1/1000 then PVal.str "<0.001" else PVal.num (round3 q)) := by
  refine ⟨pairVals_length F M, fun b => ?_, rfl, fun q hq => ?_⟩
  · unfold ssdi_pairwise
    cases b
    · simp
    · simp only [Bool.true_eq_false, if_false]
      cases htt : tt (pairVals F M) <;> simp [htt] <;> split_ifs <;> rfl
  · unfold ssdi_pairwise
    simp only [Bool.true_eq_false, if_false, hq]
    split_ifs <;> rfl

theorem ssdi_pairwise_contract_witness :
    0 < [(2 : ℚ)].length ∧ 0 < [(1 : ℚ)].length ∧
      ((pairVals [2] [1]).length = [(2 : ℚ)].length * [(1 : ℚ)].length ∧
      (∀ b, (ssdi_pairwise (fun _ => some 1) [2] [1] b).1 =
        round3 (mean (pairVals [2] [1]))) ∧
      (ssdi_pairwise (fun _ => some 1) [2] [1] false).2 = PVal.str "NA" ∧
      (∀ q, (fun (_ : List ℚ) => some (1 : ℚ)) (pairVals [2] [1]) = some q →
        (ssdi_pairwise (fun _ => some 1) [2] [1] true).2 =
          if q ≤ 1/1000 then PVal.str "<0.001" else PVal.num (round3 q))) :=
  ⟨by norm_num, by norm_num,
    ssdi_pairwise_contract (fun _ => some 1) [2] [1] (by norm_num) (by norm_num)⟩

/-- Claim C8, counterexample: a single identical pair (`[5]`, `[5]`,
zero-variance pairwise sample `[0.0]`) with significance requested and
the t-test returning NaN yields the NaN p-value, not the sentinel
string `"NA"` that the claim demands. -/
theorem ssdi_pairwise_degenerate_cex :
    (ssdi_pairwise (fun _ => none) [5] [5] true).2 = PVal.nan := rfl

/-- Claim C8, amended: with significance requested the computation is
total (never crashes) but never produces the sentinel `"NA"`: a NaN
t-test p-value (the zero-variance case) survives the `<= 0.001`
comparison as false and is propagated through `round` as NaN, and a
numeric p-value is formatted as `"<0.001"` or rounded; `"NA"` is
returned only when no significance test is requested. -/
theorem ssdi_pairwise_ttest_format (tt : List ℚ → Option ℚ) (F M : List ℚ) :
    (ssdi_pairwise tt F M true).2 =
      match tt (pairVals F M) with
      | none => PVal.nan
      | some pv => if pv ≤ 1/1000 then PVal.str "<0.001" else PVal.num (round3 pv) := by
  unfold ssdi_pairwise
  cases htt : tt (pairVals F M) <;> simp [htt] <;> split_ifs <;> rfl

/-- Claim C1, counterexample: a record with three fields whose size
field `"x"` is not parseable does not get skipped — ingestion aborts
with the `ValueError` (`Except.error`), and the following well-formed
record for species `"B"` is never processed. -/
theorem input_unparseable_size_cex :
    input_to_dict [["A", "M", "x"], ["B", "F", "2.0"]] = Except.error "x" := rfl

/-- Claim C1, amended: a record with at least 3 fields whose size
field is unparseable makes `float(cols[2])` raise, so ingestion of the
whole input aborts with that error and the remaining records are not
processed (only too-few-field and bad-sex records are skipped with a
diagnostic). -/
theorem input_unparseable_size_aborts (pre post : List (List String))
    (cols : List String) (st : List (String × Cohort) × List String)
    (hpre : pre.foldlM stepRecord (([], []) : List (String × Cohort) × List String) =
      Except.ok st)
    (hlen : 3 ≤ cols.length) (hbad : parseFloat (cols.getD 2 "") = none) :
    input_to_dict (pre ++ cols :: post) = Except.error (cols.getD 2 "") := by
  unfold input_to_dict
  rw [List.foldlM_append, hpre]
  have hstep : stepRecord st cols = Except.error (cols.getD 2 "") := by
    unfold stepRecord
    rw [if_neg (by omega), hbad]
  have hb : (Except.ok st >>= fun b => List.foldlM stepRecord b (cols :: post)) =
      List.foldlM stepRecord st (cols :: post) := rfl
  rw [hb, List.foldlM_cons, hstep]
  rfl

theorem input_unparseable_size_aborts_witness :
    ([] : List (List String)).foldlM stepRecord
        (([], []) : List (String × Cohort) × List String) = Except.ok ([], []) ∧
      3 ≤ ["A", "M", "x"].length ∧ parseFloat (["A", "M", "x"].getD 2 "") = none ∧
      input_to_dict ([] ++ ["A", "M", "x"] :: [["B", "F", "2.0"]]) =
        Except.error (["A", "M", "x"].getD 2 "") :=
  ⟨rfl, by decide, rfl,
    input_unparseable_size_aborts [] [["B", "F", "2.0"]] ["A", "M", "x"] ([], [])
      rfl (by decide) rfl⟩

theorem permutedVals_getD (draws : ℕ → List ℚ) (F M : List ℚ) (i : ℕ) (hi : i < 10000) :
    (permutedVals draws F M).getD i 0 =
      (ssdi_pairwise (fun _ => none) ((draws i).take F.length)
        ((draws i).drop F.length) false).1 := by
  have hlen : i < (permutedVals draws F M).length := by
    simpa [permutedVals] using hi
  rw [List.getD_eq_getElem?_getD, List.getElem?_eq_getElem hlen]
  simp [permutedVals]

/-- Claim C5: for nonempty cohorts and any draw sequence whose draws
are permutations of the pooled sizes (the contract of
`random.sample(allsizes, len(allsizes))`), the permutation test runs
exactly 10,000 iterations; iteration `i` splits the shuffled pool into
a first segment of length `|females|` and a remainder of length
`|males|` and records the average pairwise SSDi of the split; and the
returned two-tailed p-value is `(count of null values x with
|x| > |empirical|, plus 1) / (10000 + 1)` rounded to 5 decimals,
reported as `"<0.001"` when at most `0.001` and otherwise rounded to 3
decimals. -/
theorem run_permutations_structure (draws : ℕ → List ℚ) (F M : List ℚ) (emp : ℚ)
    (hf : 0 < F.length) (hm : 0 < M.length)
    (hperm : ∀ i, (draws i).Perm (F ++ M)) :
    (permutedVals draws F M).length = 10000 ∧
    (∀ i, i < 10000 →
      ((draws i).take F.length).length = F.length ∧
      ((draws i).drop F.length).length = M.length ∧
      (permutedVals draws F M).getD i 0 =
        (ssdi_pairwise (fun _ => none) ((draws i).take F.length)
          ((draws i).drop F.length) false).1) ∧
    (∃ pt, pt = round5 ((((permutedVals draws F M).countP
          fun x => decide (|emp| < |x|)) + 1 : ℚ) / (10000 + 1)) ∧
      (run_permutations draws F M emp).2.2 =
        if pt ≤ 1/1000 then PVal.str "<0.001" else PVal.num (round3 pt)) := by
  have hdlen : ∀ i, (draws i).length = F.length + M.length := by
    intro i
    rw [(hperm i).length_eq, List.length_append]
  refine ⟨by simp [permutedVals], fun i hi => ⟨?_, ?_, permutedVals_getD draws F M i hi⟩, ?_⟩
  · rw [List.length_take, hdlen i]; omega
  · rw [List.length_drop, hdlen i]; omega
  · refine ⟨_, rfl, ?_⟩
    have hcnt : (List.insertionSort (· ≤ ·) (permutedVals draws F M)).countP
        (fun x => decide (|emp| < |x|)) =
        (permutedVals draws F M).countP (fun x => decide (|emp| < |x|)) :=
      (List.perm_insertionSort _ _).countP_eq _
    simp only [run_permutations, hcnt, sortedVals_length]
    norm_num

theorem run_permutations_structure_witness :
    0 < [(1 : ℚ)].length ∧ 0 < [(2 : ℚ)].length ∧
      (∀ i, ((fun (_ : ℕ) => [(1 : ℚ), 2]) i).Perm ([(1 : ℚ)] ++ [2])) ∧
      ((permutedVals (fun _ => [1, 2]) [1] [2]).length = 10000 ∧
      (∀ i, i < 10000 →
        (((fun (_ : ℕ) => [(1 : ℚ), 2]) i).take [(1 : ℚ)].length).length =
          [(1 : ℚ)].length ∧
        (((fun (_ : ℕ) => [(1 : ℚ), 2]) i).drop [(1 : ℚ)].length).length =
          [(2 : ℚ)].length ∧
        (permutedVals (fun _ => [1, 2]) [1] [2]).getD i 0 =
          (ssdi_pairwise (fun _ => none)
            (((fun (_ : ℕ) => [(1 : ℚ), 2]) i).take [(1 : ℚ)].length)
            (((fun (_ : ℕ) => [(1 : ℚ), 2]) i).drop [(1 : ℚ)].length) false).1) ∧
      (∃ pt, pt = round5 ((((permutedVals (fun _ => [1, 2]) [1] [2]).countP
            fun x => decide (|(0 : ℚ)| < |x|)) + 1 : ℚ) / (10000 + 1)) ∧
        (run_permutations (fun _ => [1, 2]) [1] [2] 0).2.2 =
          if pt ≤ 1/1000 then PVal.str "<0.001" else PVal.num (round3 pt))) :=
  ⟨by norm_num, by norm_num, fun _ => List.Perm.refl _,
    run_permutations_structure (fun _ => [1, 2]) [1] [2] 0 (by norm_num) (by norm_num)
      (fun _ => List.Perm.refl _)⟩

/-- Claim C7: whenever a sex has more than one entry (and both sexes
have data), the mean of that sex's sizes is rounded to 1 decimal place
before entering the `ssdi_single` formula, the displayed
`avgf`/`avgm` values are those same 1-decimal-rounded means (`none`,
i.e. `"NA"`, for a single-entry sex), and `diff` is
`|standard ssdi - average pairwise ssdi|`. -/
theorem analyze_rounded_means (tt : List ℚ → Option ℚ) (draws : ℕ → List ℚ)
    (F M : List ℚ) (hf : 0 < F.length) (hm : 0 < M.length)
    (hmulti : 1 < F.length ∨ 1 < M.length) :
    analyze tt draws F M =
      mkResult F M
        (ssdi_single (if 1 < F.length then round1 (mean F) else F.headI)
          (if 1 < M.length then round1 (mean M) else M.headI))
        (some (ssdi_pairwise tt F M true).1)
        (ssdi_pairwise tt F M true).2
        (some (run_permutations draws F M (ssdi_pairwise tt F M true).1).1)
        (some (run_permutations draws F M (ssdi_pairwise tt F M true).1).2.1)
        (run_permutations draws F M (ssdi_pairwise tt F M true).1).2.2
        (some |ssdi_single (if 1 < F.length then round1 (mean F) else F.headI)
            (if 1 < M.length then round1 (mean M) else M.headI) -
          (ssdi_pairwise tt F M true).1|)
        (if 1 < F.length then some (round1 (mean F)) else none)
        (if 1 < M.length then some (round1 (mean M)) else none) := by
  by_cases hF1 : 1 < F.length <;> by_cases hM1 : 1 < M.length
  · unfold analyze
    rw [if_neg (by omega), if_neg (by omega), if_neg (by omega), if_pos (by omega)]
    simp only [if_pos hF1, if_pos hM1]
  · unfold analyze
    rw [if_neg (by omega), if_pos (by omega)]
    simp only [if_pos hF1, if_neg hM1]
  · unfold analyze
    rw [if_neg (by omega), if_neg (by omega), if_pos (by omega)]
    simp only [if_neg hF1, if_pos hM1]
  · rcases hmulti with h | h
    · exact absurd h hF1
    · exact absurd h hM1

theorem analyze_rounded_means_witness :
    0 < [(1 : ℚ), 2].length ∧ 0 < [(3 : ℚ)].length ∧
      (1 < [(1 : ℚ), 2].length ∨ 1 < [(3 : ℚ)].length) ∧
      analyze (fun _ => none) (fun _ => []) [1, 2] [3] =
        mkResult [1, 2] [3]
          (ssdi_single
            (if 1 < [(1 : ℚ), 2].length then round1 (mean [1, 2]) else [(1 : ℚ), 2].headI)
            (if 1 < [(3 : ℚ)].length then round1 (mean [3]) else [(3 : ℚ)].headI))
          (some (ssdi_pairwise (fun _ => none) [1, 2] [3] true).1)
          (ssdi_pairwise (fun _ => none) [1, 2] [3] true).2
          (some (run_permutations (fun _ => []) [1, 2] [3]
            (ssdi_pairwise (fun _ => none) [1, 2] [3] true).1).1)
          (some (run_permutations (fun _ => []) [1, 2] [3]
            (ssdi_pairwise (fun _ => none) [1, 2] [3] true).1).2.1)
          (run_permutations (fun _ => []) [1, 2] [3]
            (ssdi_pairwise (fun _ => none) [1, 2] [3] true).1).2.2
          (some |ssdi_single
              (if 1 < [(1 : ℚ), 2].length then round1 (mean [1, 2]) else [(1 : ℚ), 2].headI)
              (if 1 < [(3 : ℚ)].length then round1 (mean [3]) else [(3 : ℚ)].headI) -
            (ssdi_pairwise (fun _ => none) [1, 2] [3] true).1|)
          (if 1 < [(1 : ℚ), 2].length then some (round1 (mean [1, 2])) else none)
          (if 1 < [(3 : ℚ)].length then some (round1 (mean [3])) else none) :=
  ⟨by norm_num, by norm_num, Or.inl (by norm_num),
    analyze_rounded_means (fun _ => none) (fun _ => []) [1, 2] [3] (by norm_num)
      (by norm_num) (Or.inl (by norm_num))⟩

/-- Claim C2: a species with one female of size 4 and one male of
size 4 has data for both sexes, yet `run_ssdi_calculations` produces
no result for it: the standard SSDi is exactly `0.0` and Python's
`if ssdi:` (line 243) treats `0.0` as false, dropping the species.
This contradicts the source's own comments (lines 236-242), which
describe the check as eliminating only species missing a sex. -/
theorem zero_ssdi_species_dropped :
    run_ssdi_calculations (fun _ => none) (fun _ _ => []) [("A", ⟨[4], [4]⟩)] = [] := by
  norm_num [run_ssdi_calculations, sortByKey, List.insertionSort, analyze, mkResult,
    ssdi_single, List.filterMap]

/-! Ingestion lemmas for the bad-sex-token claim. -/

theorem assocFind_mem {α : Type} {d : List (String × α)} {k : String} {v : α}
    (h : assocFind d k = some v) : (k, v) ∈ d := by
  induction d with
  | nil => simp [assocFind] at h
  | cons p rest ih =>
    obtain ⟨k0, v0⟩ := p
    by_cases hk : k0 = k
    · subst hk
      simp [assocFind] at h
      simp [h]
    · simp only [assocFind, if_neg hk] at h
      exact List.mem_cons_of_mem _ (ih h)

theorem assocFind_append_isSome {α : Type} (d : List (String × α)) (k : String) (v : α) :
    (assocFind (d ++ [(k, v)]) k).isSome := by
  induction d with
  | nil => simp [assocFind]
  | cons p rest ih =>
    by_cases hk : p.1 = k <;> simp [assocFind, hk, ih]

theorem assocFind_append_left {α : Type} {d : List (String × α)} {k : String}
    (h : (assocFind d k).isSome) (d2 : List (String × α)) :
    (assocFind (d ++ d2) k).isSome := by
  induction d with
  | nil => simp [assocFind] at h
  | cons p rest ih =>
    by_cases hk : p.1 = k <;> simp [assocFind, hk] at h ⊢
    exact ih h

theorem updateCohort_cons (pk : String) (pv : Cohort) (rest : List (String × Cohort))
    (k0 : String) (size : ℚ) (b : Bool) :
    updateCohort ((pk, pv) :: rest) k0 size b =
      (if pk = k0 then
        (pk, if b then (⟨pv.M ++ [size], pv.F⟩ : Cohort) else ⟨pv.M, pv.F ++ [size]⟩)
      else (pk, pv)) :: updateCohort rest k0 size b := by
  by_cases hk0 : pk = k0 <;> simp [updateCohort, hk0]

theorem assocFind_updateCohort_isSome (d : List (String × Cohort)) (k k0 : String)
    (size : ℚ) (b : Bool) :
    (assocFind (updateCohort d k0 size b) k).isSome = (assocFind d k).isSome := by
  induction d with
  | nil => rfl
  | cons p rest ih =>
    obtain ⟨pk, pv⟩ := p
    rw [updateCohort_cons]
    by_cases hk0 : pk = k0
    · rw [if_pos hk0]
      by_cases hk : pk = k <;> simp [assocFind, hk, ih]
    · rw [if_neg hk0]
      by_cases hk : pk = k <;> simp [assocFind, hk, ih]

theorem updateCohort_entry {d : List (String × Cohort)} {s : String}
    (hinv : ∀ p ∈ d, p.1 = s → p.2 = (⟨[], []⟩ : Cohort)) {k : String} (hk : k ≠ s)
    (size : ℚ) (b : Bool) :
    ∀ p ∈ updateCohort d k size b, p.1 = s → p.2 = (⟨[], []⟩ : Cohort) := by
  intro p hp hps
  rcases List.mem_map.1 hp with ⟨q, hq, rfl⟩
  by_cases hqk : q.1 = k
  · rw [if_pos hqk] at hps ⊢
    exact absurd (hqk ▸ hps) hk
  · rw [if_neg hqk] at hps ⊢
    exact hinv q hq hps

theorem stepRecord_inv {s : String} {st st' : List (String × Cohort) × List String}
    {cols : List String}
    (hcols : 3 ≤ cols.length → cols.getD 0 "" = s →
      upperStr (cols.getD 1 "") ≠ "M" ∧ upperStr (cols.getD 1 "") ≠ "F")
    (hok : stepRecord st cols = Except.ok st')
    (hinv : ∀ p ∈ st.1, p.1 = s → p.2 = (⟨[], []⟩ : Cohort)) :
    ∀ p ∈ st'.1, p.1 = s → p.2 = (⟨[], []⟩ : Cohort) := by
  unfold stepRecord at hok
  by_cases hlen : cols.length < 3
  · rw [if_pos hlen] at hok
    simp only [Except.ok.injEq] at hok
    subst hok
    exact hinv
  · rw [if_neg hlen] at hok
    cases hpf : parseFloat (cols.getD 2 "") with
    | none => rw [hpf] at hok; exact absurd hok (by simp)
    | some size =>
      rw [hpf] at hok
      dsimp only at hok
      have hdinv : ∀ p ∈ (if (assocFind st.1 (cols.getD 0 "")).isSome then st.1
          else st.1 ++ [(cols.getD 0 "", (⟨[], []⟩ : Cohort))]),
          p.1 = s → p.2 = (⟨[], []⟩ : Cohort) := by
        split_ifs
        · exact hinv
        · intro p hp hps
          rcases List.mem_append.1 hp with h | h
          · exact hinv p h hps
          · simp only [List.mem_singleton] at h
            rw [h]
      by_cases hsps : cols.getD 0 "" = s
      · have hbad := hcols (by omega) hsps
        rw [if_neg hbad.1, if_neg hbad.2] at hok
        simp only [Except.ok.injEq] at hok
        subst hok
        exact hdinv
      · by_cases hsM : upperStr (cols.getD 1 "") = "M"
        · rw [if_pos hsM] at hok
          simp only [Except.ok.injEq] at hok
          subst hok
          exact updateCohort_entry hdinv hsps size true
        · rw [if_neg hsM] at hok
          by_cases hsF : upperStr (cols.getD 1 "") = "F"
          · rw [if_pos hsF] at hok
            simp only [Except.ok.injEq] at hok
            subst hok
            exact updateCohort_entry hdinv hsps size false
          · rw [if_neg hsF] at hok
            simp only [Except.ok.injEq] at hok
            subst hok
            exact hdinv

theorem stepRecord_key_isSome {k : String} {st st' : List (String × Cohort) × List String}
    {cols : List String} (hok : stepRecord st cols = Except.ok st')
    (h : (assocFind st.1 k).isSome) : (assocFind st'.1 k).isSome := by
  unfold stepRecord at hok
  by_cases hlen : cols.length < 3
  · rw [if_pos hlen] at hok
    simp only [Except.ok.injEq] at hok
    subst hok
    exact h
  · rw [if_neg hlen] at hok
    cases hpf : parseFloat (cols.getD 2 "") with
    | none => rw [hpf] at hok; exact absurd hok (by simp)
    | some size =>
      rw [hpf] at hok
      dsimp only at hok
      have hd : (assocFind (if (assocFind st.1 (cols.getD 0 "")).isSome then st.1
          else st.1 ++ [(cols.getD 0 "", (⟨[], []⟩ : Cohort))]) k).isSome := by
        split_ifs
        · exact h
        · exact assocFind_append_left h _
      by_cases hsM : upperStr (cols.getD 1 "") = "M"
      · rw [if_pos hsM] at hok
        simp only [Except.ok.injEq] at hok
        subst hok
        rw [assocFind_updateCohort_isSome]
        exact hd
      · rw [if_neg hsM] at hok
        by_cases hsF : upperStr (cols.getD 1 "") = "F"
        · rw [if_pos hsF] at hok
          simp only [Except.ok.injEq] at hok
          subst hok
          rw [assocFind_updateCohort_isSome]
          exact hd
        · rw [if_neg hsF] at hok
          simp only [Except.ok.injEq] at hok
          subst hok
          exact hd

theorem stepRecord_creates {s : String} {st st' : List (String × Cohort) × List String}
    {cols : List String} (hok : stepRecord st cols = Except.ok st')
    (hlen : 3 ≤ cols.length) (hsp : cols.getD 0 "" = s) :
    (assocFind st'.1 s).isSome := by
  unfold stepRecord at hok
  rw [if_neg (by omega)] at hok
  cases hpf : parseFloat (cols.getD 2 "") with
  | none => rw [hpf] at hok; exact absurd hok (by simp)
  | some size =>
    rw [hpf] at hok
    dsimp only at hok
    rw [hsp] at hok
    have hd : (assocFind (if (assocFind st.1 s).isSome then st.1
        else st.1 ++ [(s, (⟨[], []⟩ : Cohort))]) s).isSome := by
      split_ifs with hfound
      · exact hfound
      · exact assocFind_append_isSome st.1 s _
    by_cases hsM : upperStr (cols.getD 1 "") = "M"
    · rw [if_pos hsM] at hok
      simp only [Except.ok.injEq] at hok
      subst hok
      rw [assocFind_updateCohort_isSome]
      exact hd
    · rw [if_neg hsM] at hok
      by_cases hsF : upperStr (cols.getD 1 "") = "F"
      · rw [if_pos hsF] at hok
        simp only [Except.ok.injEq] at hok
        subst hok
        rw [assocFind_updateCohort_isSome]
        exact hd
      · rw [if_neg hsF] at hok
        simp only [Except.ok.injEq] at hok
        subst hok
        exact hd

theorem foldlM_ok_cons {σ α : Type} {g : σ → α → Except String σ} {x : α} {xs : List α}
    {st0 out : σ} (h : (x :: xs).foldlM g st0 = Except.ok out) :
    ∃ st1, g st0 x = Except.ok st1 ∧ xs.foldlM g st1 = Except.ok out := by
  rw [List.foldlM_cons] at h
  cases hg : g st0 x with
  | error e =>
    rw [hg] at h
    exact Except.noConfusion (h : (Except.error e : Except String σ) = Except.ok out)
  | ok st1 =>
    rw [hg] at h
    exact ⟨st1, rfl, h⟩

theorem ingest_all_bad_sex {s : String} (records : List (List String)) :
    ∀ st0 st : List (String × Cohort) × List String,
      (∀ cols ∈ records, 3 ≤ cols.length → cols.getD 0 "" = s →
        upperStr (cols.getD 1 "") ≠ "M" ∧ upperStr (cols.getD 1 "") ≠ "F") →
      records.foldlM stepRecord st0 = Except.ok st →
      (∀ p ∈ st0.1, p.1 = s → p.2 = (⟨[], []⟩ : Cohort)) →
      ∀ p ∈ st.1, p.1 = s → p.2 = (⟨[], []⟩ : Cohort) := by
  induction records with
  | nil =>
    intro st0 st hall hok hinv
    simp only [List.foldlM_nil] at hok
    have h2 : st0 = st := Except.ok.inj hok
    exact h2 ▸ hinv
  | cons x xs ih =>
    intro st0 st hall hok hinv
    obtain ⟨st1, hstep, hrest⟩ := foldlM_ok_cons hok
    exact ih st1 st (fun c hc => hall c (List.mem_cons_of_mem _ hc)) hrest
      (stepRecord_inv (hall x (List.mem_cons_self _ _)) hstep hinv)

theorem ingest_key_isSome {k : String} (records : List (List String)) :
    ∀ st0 st : List (String × Cohort) × List String,
      records.foldlM stepRecord st0 = Except.ok st →
      (assocFind st0.1 k).isSome → (assocFind st.1 k).isSome := by
  induction records with
  | nil =>
    intro st0 st hok h
    simp only [List.foldlM_nil] at hok
    have h2 : st0 = st := Except.ok.inj hok
    exact h2 ▸ h
  | cons x xs ih =>
    intro st0 st hok h
    obtain ⟨st1, hstep, hrest⟩ := foldlM_ok_cons hok
    exact ih st1 st hrest (stepRecord_key_isSome hstep h)

theorem ingest_occurrence {s : String} (records : List (List String)) :
    ∀ st0 st : List (String × Cohort) × List String,
      records.foldlM stepRecord st0 = Except.ok st →
      (∃ cols ∈ records, 3 ≤ cols.length ∧ cols.getD 0 "" = s) →
      (assocFind st.1 s).isSome := by
  induction records with
  | nil =>
    intro st0 st hok hocc
    simp at hocc
  | cons x xs ih =>
    intro st0 st hok hocc
    obtain ⟨st1, hstep, hrest⟩ := foldlM_ok_cons hok
    rcases hocc with ⟨cols, hmem, hlen, hsp⟩
    rcases List.mem_cons.1 hmem with rfl | hmem'
    · exact ingest_key_isSome xs st1 st hrest (stepRecord_creates hstep hlen hsp)
    · exact ih st1 st hrest ⟨cols, hmem', hlen, hsp⟩

theorem analyze_empty (tt : List ℚ → Option ℚ) (draws : ℕ → List ℚ) :
    analyze tt draws ([] : List ℚ) ([] : List ℚ) = none := by
  simp [analyze]

theorem run_ssdi_no_entry {tt : List ℚ → Option ℚ} {draws : String → ℕ → List ℚ}
    {d : List (String × Cohort)} {s : String}
    (hinv : ∀ p ∈ d, p.1 = s → p.2 = (⟨[], []⟩ : Cohort)) :
    assocFind (run_ssdi_calculations tt draws d) s = none := by
  cases hfind : assocFind (run_ssdi_calculations tt draws d) s with
  | none => rfl
  | some r =>
    exfalso
    have hmem := assocFind_mem hfind
    unfold run_ssdi_calculations at hmem
    rcases List.mem_filterMap.1 hmem with ⟨kv, hkv, hmap⟩
    rcases Option.map_eq_some'.1 hmap with ⟨r0, hr0, hpair⟩
    have hk1 : kv.1 = s := congrArg Prod.fst hpair
    have hkvd : kv ∈ d := ((List.perm_insertionSort _ _).mem_iff).1 hkv
    have hcoh : kv.2 = (⟨[], []⟩ : Cohort) := hinv kv hkvd hk1
    rw [hcoh] at hr0
    rw [analyze_empty] at hr0
    exact Option.noConfusion hr0

/-- Claim C10: if every record of a species `s` (with at least 3
fields) carries an unrecognized sex token, and at least one such
record occurs, then ingestion still creates an entry for `s` whose
male and female lists are both empty (the entry is created on first
sight, before the sex dispatch), `s` is one of the keys counted by the
`len(species_dict)` species total of line 137, and `s` produces no
entry in the result mapping of `run_ssdi_calculations`. -/
theorem input_bad_sex_species_counted (records : List (List String)) (s : String)
    (st : List (String × Cohort) × List String)
    (hok : input_to_dict records = Except.ok st)
    (hall : ∀ cols ∈ records, 3 ≤ cols.length → cols.getD 0 "" = s →
      upperStr (cols.getD 1 "") ≠ "M" ∧ upperStr (cols.getD 1 "") ≠ "F")
    (hocc : ∃ cols ∈ records, 3 ≤ cols.length ∧ cols.getD 0 "" = s) :
    assocFind st.1 s = some ⟨[], []⟩ ∧ s ∈ st.1.map Prod.fst ∧
      ∀ tt draws, assocFind (run_ssdi_calculations tt draws st.1) s = none := by
  have hinv := ingest_all_bad_sex records ([], []) st hall hok (by simp)
  have hsome := ingest_occurrence records ([], []) st hok hocc
  obtain ⟨v, hv⟩ := Option.isSome_iff_exists.1 hsome
  have hmem := assocFind_mem hv
  have hveq : v = ⟨[], []⟩ := hinv _ hmem rfl
  exact ⟨hveq ▸ hv, List.mem_map.2 ⟨(s, v), hmem, rfl⟩,
    fun tt draws => run_ssdi_no_entry hinv⟩

theorem input_bad_sex_species_counted_witness :
    input_to_dict [["A", "X", "2.0"]] =
        Except.ok ([("A", ⟨[], []⟩)], ["input_to_dict: Skipping entry"]) ∧
      (∀ cols ∈ [["A", "X", "2.0"]], 3 ≤ cols.length → cols.getD 0 "" = "A" →
        upperStr (cols.getD 1 "") ≠ "M" ∧ upperStr (cols.getD 1 "") ≠ "F") ∧
      (∃ cols ∈ [["A", "X", "2.0"]], 3 ≤ cols.length ∧ cols.getD 0 "" = "A") ∧
      (assocFind ([("A", (⟨[], []⟩ : Cohort))], ["input_to_dict: Skipping entry"]).1 "A" =
          some ⟨[], []⟩ ∧
        "A" ∈ ([("A", (⟨[], []⟩ : Cohort))],
          ["input_to_dict: Skipping entry"]).1.map Prod.fst ∧
        ∀ tt draws, assocFind (run_ssdi_calculations tt draws
          ([("A", (⟨[], []⟩ : Cohort))], ["input_to_dict: Skipping entry"]).1) "A" = none) :=
  ⟨rfl, by decide, ⟨["A", "X", "2.0"], by decide, by decide, by decide⟩,
    input_bad_sex_species_counted [["A", "X", "2.0"]] "A"
      ([("A", ⟨[], []⟩)], ["input_to_dict: Skipping entry"]) rfl (by decide)
      ⟨["A", "X", "2.0"], by decide, by decide, by decide⟩⟩
